import Mathlib

/-!
Shallow embedding of the libgit4cpp repository engine (taskolib/libgit4cpp)
and proofs about its documented behavior.

The embedding follows the C++ sources: `src/Repository.cc`, `src/Remote.cc`,
`src/Error.cc`, `include/libgit4cpp/Error.h`, `include/libgit4cpp/Repository.h`.
libgit2 primitives (status flags, index bookkeeping, ref resolution) are
external collaborators of that code; their behavior is modelled explicitly
in definitions marked as such.
-/

namespace LibGit4Cpp

/-! ## Status flags (libgit2 `git_status_t` bit values from git2/status.h) -/

def GIT_STATUS_CURRENT : Nat := 0

def GIT_STATUS_INDEX_NEW : Nat := 1

def GIT_STATUS_INDEX_MODIFIED : Nat := 2

def GIT_STATUS_INDEX_DELETED : Nat := 4

def GIT_STATUS_INDEX_RENAMED : Nat := 8

def GIT_STATUS_INDEX_TYPECHANGE : Nat := 16

def GIT_STATUS_WT_NEW : Nat := 128

def GIT_STATUS_WT_MODIFIED : Nat := 256

def GIT_STATUS_WT_DELETED : Nat := 512

def GIT_STATUS_WT_TYPECHANGE : Nat := 1024

def GIT_STATUS_WT_RENAMED : Nat := 2048

def GIT_STATUS_IGNORED : Nat := 16384

/-- One side of a libgit2 `git_diff_delta` (`old_file` / `new_file`); only the
path is read by the wrapper code. `none` models a NULL path pointer. -/
structure DiffFile where
  path : Option String
deriving DecidableEq, Repr

/-- A libgit2 `git_diff_delta`: the pair of files of one delta. -/
structure DiffDelta where
  old_file : DiffFile
  new_file : DiffFile
deriving DecidableEq, Repr

/-- A libgit2 `git_status_entry`: a status bitmask plus the HEAD-to-index and
index-to-workdir deltas for one path. -/
structure StatusEntry where
  status : Nat
  head_to_index : DiffDelta
  index_to_workdir : DiffDelta
deriving DecidableEq, Repr

/-- `struct FileStatus` from include/libgit4cpp/Repository.h: the record the
status engine produces for each path. -/
structure FileStatus where
  path_name : String
  handling : String
  changes : String
deriving DecidableEq, Repr

/-- Path rendering shared by `is_unstaged` and `is_staged` in Repository.cc:
`old -> new` when both paths exist and differ, otherwise the one that exists
(`old_path ? old_path : new_path`). -/
def render_path (d : DiffDelta) : String :=
  match d.old_file.path, d.new_file.path with
  | some o, some n => if o ≠ n then o ++ " -> " ++ n else o
  | some o, none => o
  | none, some n => n
  | none, none => ""

/-- `Repository::is_unstaged` from Repository.cc: check the working-tree flags
in source order (a later match overwrites an earlier one) and build the
`unstaged` record from the index-to-workdir delta; `none` models `return false`. -/
def is_unstaged (s : StatusEntry) : Option FileStatus :=
  let wstatus := ""
  let wstatus := if s.status &&& GIT_STATUS_WT_MODIFIED ≠ 0 then "modified" else wstatus
  let wstatus := if s.status &&& GIT_STATUS_WT_DELETED ≠ 0 then "deleted" else wstatus
  let wstatus := if s.status &&& GIT_STATUS_WT_RENAMED ≠ 0 then "renamed" else wstatus
  let wstatus := if s.status &&& GIT_STATUS_WT_TYPECHANGE ≠ 0 then "typechange" else wstatus
  if wstatus = "" then none
  else some { path_name := render_path s.index_to_workdir
            , handling := "unstaged"
            , changes := wstatus }

/-- `Repository::is_staged` from Repository.cc: check the index flags in source
order and build the `staged` record from the HEAD-to-index delta. -/
def is_staged (s : StatusEntry) : Option FileStatus :=
  let istatus := ""
  let istatus := if s.status &&& GIT_STATUS_INDEX_NEW ≠ 0 then "new file" else istatus
  let istatus := if s.status &&& GIT_STATUS_INDEX_MODIFIED ≠ 0 then "modified" else istatus
  let istatus := if s.status &&& GIT_STATUS_INDEX_DELETED ≠ 0 then "deleted" else istatus
  let istatus := if s.status &&& GIT_STATUS_INDEX_RENAMED ≠ 0 then "renamed" else istatus
  let istatus := if s.status &&& GIT_STATUS_INDEX_TYPECHANGE ≠ 0 then "typechange" else istatus
  if istatus = "" then none
  else some { path_name := render_path s.head_to_index
            , handling := "staged"
            , changes := istatus }

/-- The per-entry body of `Repository::collect_status` in Repository.cc:
unchanged check first, then `is_unstaged`, then `is_staged`, then the
untracked and ignored checks; an entry matching no check contributes nothing. -/
def classify_entry (s : StatusEntry) : Option FileStatus :=
  if s.status = GIT_STATUS_CURRENT then
    some { path_name := (s.head_to_index.old_file.path).getD
             ((s.head_to_index.new_file.path).getD "")
         , handling := "unchanged"
         , changes := "unchanged" }
  else match is_unstaged s with
  | some fs => some fs
  | none =>
    match is_staged s with
    | some fs => some fs
    | none =>
      if s.status = GIT_STATUS_WT_NEW then
        some { path_name := (s.index_to_workdir.old_file.path).getD ""
             , handling := "untracked"
             , changes := "untracked" }
      else if s.status = GIT_STATUS_IGNORED then
        some { path_name := (s.index_to_workdir.old_file.path).getD ""
             , handling := "ignored"
             , changes := "ignored" }
      else none

/-- `Repository::collect_status` from Repository.cc: fold the per-entry
classification over the status list, pushing one record per matched entry. -/
def collect_status (entries : List StatusEntry) : List FileStatus :=
  entries.filterMap classify_entry

/-! ## Per-path repository view

Modelled from libgit2 semantics (external collaborator): with the status
options used by `Repository::status` (INCLUDE_UNTRACKED, RECURSE_UNTRACKED_DIRS,
INCLUDE_UNMODIFIED, INCLUDE_IGNORED and no rename detection), libgit2 produces
one status entry per path known to the repository, whose bitmask combines the
HEAD-vs-index delta with the index-vs-workdir delta for that path. -/

/-- The state of a single path in the three trees compared by the status
engine: content id in the HEAD tree, in the index, and in the working tree,
plus whether ignore rules exclude the (untracked) path. -/
structure PathState where
  head : Option Nat
  index : Option Nat
  wt : Option Nat
  ignored : Bool
deriving DecidableEq, Repr

/-- Modelled from libgit2: the HEAD-vs-index half of the status bitmask. -/
def index_flags (p : PathState) : Nat :=
  match p.head, p.index with
  | none, some _ => GIT_STATUS_INDEX_NEW
  | some _, none => GIT_STATUS_INDEX_DELETED
  | some h, some i => if h = i then 0 else GIT_STATUS_INDEX_MODIFIED
  | none, none => 0

/-- Modelled from libgit2: the index-vs-workdir half of the status bitmask.
A file present on disk but absent from the index is untracked (`WT_NEW`)
unless it is also absent from HEAD and excluded by ignore rules. -/
def wt_flags (p : PathState) : Nat :=
  match p.index, p.wt with
  | none, some _ =>
      if p.head = none && p.ignored then GIT_STATUS_IGNORED else GIT_STATUS_WT_NEW
  | some _, none => GIT_STATUS_WT_DELETED
  | some i, some w => if i = w then 0 else GIT_STATUS_WT_MODIFIED
  | none, none => 0

/-- Modelled from libgit2: the full status bitmask of a path. -/
def status_of (p : PathState) : Nat :=
  index_flags p ||| wt_flags p

/-- Modelled from libgit2: the status entry built for one known path. Without
rename detection both delta sides carry the same path. -/
def entry_of (path : String) (p : PathState) : StatusEntry :=
  { status := status_of p
  , head_to_index := ⟨⟨some path⟩, ⟨some path⟩⟩
  , index_to_workdir := ⟨⟨some path⟩, ⟨some path⟩⟩ }

/-- A path is known to the repository when it appears in the HEAD tree, the
index, or the working tree. -/
def known (p : PathState) : Prop :=
  p.head.isSome ∨ p.index.isSome ∨ p.wt.isSome

instance (p : PathState) : Decidable (known p) := by
  unfold known; infer_instance


/-! ## Basic classification lemmas -/

theorem render_path_same (p : String) :
    render_path ⟨⟨some p⟩, ⟨some p⟩⟩ = p := by
  simp [render_path]

theorem is_unstaged_none (st : Nat) (d1 d2 : DiffDelta)
    (h2 : st &&& GIT_STATUS_WT_MODIFIED = 0) (h3 : st &&& GIT_STATUS_WT_DELETED = 0)
    (h4 : st &&& GIT_STATUS_WT_RENAMED = 0) (h5 : st &&& GIT_STATUS_WT_TYPECHANGE = 0) :
    is_unstaged ⟨st, d1, d2⟩ = none := by
  simp [is_unstaged, h2, h3, h4, h5]

theorem is_unstaged_modified_eval (st : Nat) (d1 : DiffDelta) (p : String)
    (h2 : st &&& GIT_STATUS_WT_MODIFIED ≠ 0) (h3 : st &&& GIT_STATUS_WT_DELETED = 0)
    (h4 : st &&& GIT_STATUS_WT_RENAMED = 0) (h5 : st &&& GIT_STATUS_WT_TYPECHANGE = 0) :
    is_unstaged ⟨st, d1, ⟨⟨some p⟩, ⟨some p⟩⟩⟩ = some ⟨p, "unstaged", "modified"⟩ := by
  simp [is_unstaged, h2, h3, h4, h5, render_path]

theorem is_unstaged_deleted_eval (st : Nat) (d1 : DiffDelta) (p : String)
    (h3 : st &&& GIT_STATUS_WT_DELETED ≠ 0)
    (h4 : st &&& GIT_STATUS_WT_RENAMED = 0) (h5 : st &&& GIT_STATUS_WT_TYPECHANGE = 0) :
    is_unstaged ⟨st, d1, ⟨⟨some p⟩, ⟨some p⟩⟩⟩ = some ⟨p, "unstaged", "deleted"⟩ := by
  simp [is_unstaged, h3, h4, h5, render_path]

theorem is_staged_none (st : Nat) (d1 d2 : DiffDelta)
    (h1 : st &&& GIT_STATUS_INDEX_NEW = 0) (h2 : st &&& GIT_STATUS_INDEX_MODIFIED = 0)
    (h3 : st &&& GIT_STATUS_INDEX_DELETED = 0) (h4 : st &&& GIT_STATUS_INDEX_RENAMED = 0)
    (h5 : st &&& GIT_STATUS_INDEX_TYPECHANGE = 0) :
    is_staged ⟨st, d1, d2⟩ = none := by
  simp [is_staged, h1, h2, h3, h4, h5]

theorem is_staged_new_eval (st : Nat) (d2 : DiffDelta) (p : String)
    (h1 : st &&& GIT_STATUS_INDEX_NEW ≠ 0) (h2 : st &&& GIT_STATUS_INDEX_MODIFIED = 0)
    (h3 : st &&& GIT_STATUS_INDEX_DELETED = 0) (h4 : st &&& GIT_STATUS_INDEX_RENAMED = 0)
    (h5 : st &&& GIT_STATUS_INDEX_TYPECHANGE = 0) :
    is_staged ⟨st, ⟨⟨some p⟩, ⟨some p⟩⟩, d2⟩ = some ⟨p, "staged", "new file"⟩ := by
  simp [is_staged, h1, h2, h3, h4, h5, render_path]

theorem is_staged_modified_eval (st : Nat) (d2 : DiffDelta) (p : String)
    (h2 : st &&& GIT_STATUS_INDEX_MODIFIED ≠ 0)
    (h3 : st &&& GIT_STATUS_INDEX_DELETED = 0) (h4 : st &&& GIT_STATUS_INDEX_RENAMED = 0)
    (h5 : st &&& GIT_STATUS_INDEX_TYPECHANGE = 0) :
    is_staged ⟨st, ⟨⟨some p⟩, ⟨some p⟩⟩, d2⟩ = some ⟨p, "staged", "modified"⟩ := by
  simp [is_staged, h2, h3, h4, h5, render_path]

theorem is_staged_deleted_eval (st : Nat) (d2 : DiffDelta) (p : String)
    (h3 : st &&& GIT_STATUS_INDEX_DELETED ≠ 0) (h4 : st &&& GIT_STATUS_INDEX_RENAMED = 0)
    (h5 : st &&& GIT_STATUS_INDEX_TYPECHANGE = 0) :
    is_staged ⟨st, ⟨⟨some p⟩, ⟨some p⟩⟩, d2⟩ = some ⟨p, "staged", "deleted"⟩ := by
  simp [is_staged, h3, h4, h5, render_path]

theorem classify_entry_current (st : Nat) (d1 d2 : DiffDelta)
    (h : st = GIT_STATUS_CURRENT) :
    classify_entry ⟨st, d1, d2⟩ =
      some ⟨(d1.old_file.path).getD ((d1.new_file.path).getD ""),
        "unchanged", "unchanged"⟩ := by
  unfold classify_entry
  dsimp only
  rw [if_pos h]

theorem classify_entry_unstaged (st : Nat) (d1 d2 : DiffDelta) (fs : FileStatus)
    (h0 : ¬ st = GIT_STATUS_CURRENT) (h : is_unstaged ⟨st, d1, d2⟩ = some fs) :
    classify_entry ⟨st, d1, d2⟩ = some fs := by
  unfold classify_entry
  dsimp only
  rw [if_neg h0, h]

theorem classify_entry_staged (st : Nat) (d1 d2 : DiffDelta) (fs : FileStatus)
    (h0 : ¬ st = GIT_STATUS_CURRENT) (h1 : is_unstaged ⟨st, d1, d2⟩ = none)
    (h2 : is_staged ⟨st, d1, d2⟩ = some fs) :
    classify_entry ⟨st, d1, d2⟩ = some fs := by
  unfold classify_entry
  dsimp only
  rw [if_neg h0, h1, h2]

theorem classify_entry_untracked (st : Nat) (d1 d2 : DiffDelta)
    (h0 : ¬ st = GIT_STATUS_CURRENT) (h1 : is_unstaged ⟨st, d1, d2⟩ = none)
    (h2 : is_staged ⟨st, d1, d2⟩ = none) (h3 : st = GIT_STATUS_WT_NEW) :
    classify_entry ⟨st, d1, d2⟩ =
      some ⟨(d2.old_file.path).getD "", "untracked", "untracked"⟩ := by
  unfold classify_entry
  dsimp only
  rw [if_neg h0, h1, h2, if_pos h3]

theorem classify_entry_ignored (st : Nat) (d1 d2 : DiffDelta)
    (h0 : ¬ st = GIT_STATUS_CURRENT) (h1 : is_unstaged ⟨st, d1, d2⟩ = none)
    (h2 : is_staged ⟨st, d1, d2⟩ = none) (h3 : ¬ st = GIT_STATUS_WT_NEW)
    (h4 : st = GIT_STATUS_IGNORED) :
    classify_entry ⟨st, d1, d2⟩ =
      some ⟨(d2.old_file.path).getD "", "ignored", "ignored"⟩ := by
  unfold classify_entry
  dsimp only
  rw [if_neg h0, h1, h2, if_neg h3, if_pos h4]

/-- Every known path's status entry matches exactly one branch of
`collect_status`, and the produced record names that path. -/
theorem classify_entry_of_known (path : String) (p : PathState) (h : known p) :
    ∃ fs, classify_entry (entry_of path p) = some fs ∧ fs.path_name = path := by
  obtain ⟨ho, hi, hw, ig⟩ := p
  rcases ho with _ | h0 <;> rcases hi with _ | i0 <;> rcases hw with _ | w0
  · simp [known] at h
  · cases ig
    · have hent : entry_of path ⟨none, none, some w0, false⟩ =
          ⟨128, ⟨⟨some path⟩, ⟨some path⟩⟩, ⟨⟨some path⟩, ⟨some path⟩⟩⟩ := by
        simp [entry_of, status_of, index_flags, wt_flags, GIT_STATUS_INDEX_NEW,
          GIT_STATUS_INDEX_MODIFIED, GIT_STATUS_INDEX_DELETED, GIT_STATUS_WT_NEW,
          GIT_STATUS_WT_MODIFIED, GIT_STATUS_WT_DELETED, GIT_STATUS_IGNORED]
      refine ⟨⟨path, "untracked", "untracked"⟩, ?_, rfl⟩
      rw [hent]
      exact classify_entry_untracked 128 _ _ (by decide)
        (is_unstaged_none 128 _ _ (by decide) (by decide) (by decide) (by decide))
        (is_staged_none 128 _ _ (by decide) (by decide) (by decide) (by decide)
          (by decide))
        (by decide)
    · have hent : entry_of path ⟨none, none, some w0, true⟩ =
          ⟨16384, ⟨⟨some path⟩, ⟨some path⟩⟩, ⟨⟨some path⟩, ⟨some path⟩⟩⟩ := by
        simp [entry_of, status_of, index_flags, wt_flags, GIT_STATUS_INDEX_NEW,
          GIT_STATUS_INDEX_MODIFIED, GIT_STATUS_INDEX_DELETED, GIT_STATUS_WT_NEW,
          GIT_STATUS_WT_MODIFIED, GIT_STATUS_WT_DELETED, GIT_STATUS_IGNORED]
      refine ⟨⟨path, "ignored", "ignored"⟩, ?_, rfl⟩
      rw [hent]
      exact classify_entry_ignored 16384 _ _ (by decide)
        (is_unstaged_none 16384 _ _ (by decide) (by decide) (by decide) (by decide))
        (is_staged_none 16384 _ _ (by decide) (by decide) (by decide) (by decide)
          (by decide))
        (by decide) (by decide)
  · have hent : entry_of path ⟨none, some i0, none, ig⟩ =
        ⟨513, ⟨⟨some path⟩, ⟨some path⟩⟩, ⟨⟨some path⟩, ⟨some path⟩⟩⟩ := by
      simp [entry_of, status_of, index_flags, wt_flags, GIT_STATUS_INDEX_NEW,
          GIT_STATUS_INDEX_MODIFIED, GIT_STATUS_INDEX_DELETED, GIT_STATUS_WT_NEW,
          GIT_STATUS_WT_MODIFIED, GIT_STATUS_WT_DELETED, GIT_STATUS_IGNORED]
    refine ⟨⟨path, "unstaged", "deleted"⟩, ?_, rfl⟩
    rw [hent]
    exact classify_entry_unstaged 513 _ _ _ (by decide)
      (is_unstaged_deleted_eval 513 _ path (by decide) (by decide) (by decide))
  · by_cases he : i0 = w0
    · subst he
      have hent : entry_of path ⟨none, some i0, some i0, ig⟩ =
          ⟨1, ⟨⟨some path⟩, ⟨some path⟩⟩, ⟨⟨some path⟩, ⟨some path⟩⟩⟩ := by
        simp [entry_of, status_of, index_flags, wt_flags, GIT_STATUS_INDEX_NEW,
          GIT_STATUS_INDEX_MODIFIED, GIT_STATUS_INDEX_DELETED, GIT_STATUS_WT_NEW,
          GIT_STATUS_WT_MODIFIED, GIT_STATUS_WT_DELETED, GIT_STATUS_IGNORED]
      refine ⟨⟨path, "staged", "new file"⟩, ?_, rfl⟩
      rw [hent]
      exact classify_entry_staged 1 _ _ _ (by decide)
        (is_unstaged_none 1 _ _ (by decide) (by decide) (by decide) (by decide))
        (is_staged_new_eval 1 _ path (by decide) (by decide) (by decide) (by decide)
          (by decide))
    · have hent : entry_of path ⟨none, some i0, some w0, ig⟩ =
          ⟨257, ⟨⟨some path⟩, ⟨some path⟩⟩, ⟨⟨some path⟩, ⟨some path⟩⟩⟩ := by
        simp [entry_of, status_of, index_flags, wt_flags, GIT_STATUS_INDEX_NEW,
          GIT_STATUS_INDEX_MODIFIED, GIT_STATUS_INDEX_DELETED, GIT_STATUS_WT_NEW,
          GIT_STATUS_WT_MODIFIED, GIT_STATUS_WT_DELETED, GIT_STATUS_IGNORED, he]
      refine ⟨⟨path, "unstaged", "modified"⟩, ?_, rfl⟩
      rw [hent]
      exact classify_entry_unstaged 257 _ _ _ (by decide)
        (is_unstaged_modified_eval 257 _ path (by decide) (by decide) (by decide)
          (by decide))
  · have hent : entry_of path ⟨some h0, none, none, ig⟩ =
        ⟨4, ⟨⟨some path⟩, ⟨some path⟩⟩, ⟨⟨some path⟩, ⟨some path⟩⟩⟩ := by
      simp [entry_of, status_of, index_flags, wt_flags, GIT_STATUS_INDEX_NEW,
          GIT_STATUS_INDEX_MODIFIED, GIT_STATUS_INDEX_DELETED, GIT_STATUS_WT_NEW,
          GIT_STATUS_WT_MODIFIED, GIT_STATUS_WT_DELETED, GIT_STATUS_IGNORED]
    refine ⟨⟨path, "staged", "deleted"⟩, ?_, rfl⟩
    rw [hent]
    exact classify_entry_staged 4 _ _ _ (by decide)
      (is_unstaged_none 4 _ _ (by decide) (by decide) (by decide) (by decide))
      (is_staged_deleted_eval 4 _ path (by decide) (by decide) (by decide))
  · have hent : entry_of path ⟨some h0, none, some w0, ig⟩ =
        ⟨132, ⟨⟨some path⟩, ⟨some path⟩⟩, ⟨⟨some path⟩, ⟨some path⟩⟩⟩ := by
      simp [entry_of, status_of, index_flags, wt_flags, GIT_STATUS_INDEX_NEW,
          GIT_STATUS_INDEX_MODIFIED, GIT_STATUS_INDEX_DELETED, GIT_STATUS_WT_NEW,
          GIT_STATUS_WT_MODIFIED, GIT_STATUS_WT_DELETED, GIT_STATUS_IGNORED]
    refine ⟨⟨path, "staged", "deleted"⟩, ?_, rfl⟩
    rw [hent]
    exact classify_entry_staged 132 _ _ _ (by decide)
      (is_unstaged_none 132 _ _ (by decide) (by decide) (by decide) (by decide))
      (is_staged_deleted_eval 132 _ path (by decide) (by decide) (by decide))
  · by_cases he : h0 = i0
    · subst he
      have hent : entry_of path ⟨some h0, some h0, none, ig⟩ =
          ⟨512, ⟨⟨some path⟩, ⟨some path⟩⟩, ⟨⟨some path⟩, ⟨some path⟩⟩⟩ := by
        simp [entry_of, status_of, index_flags, wt_flags, GIT_STATUS_INDEX_NEW,
          GIT_STATUS_INDEX_MODIFIED, GIT_STATUS_INDEX_DELETED, GIT_STATUS_WT_NEW,
          GIT_STATUS_WT_MODIFIED, GIT_STATUS_WT_DELETED, GIT_STATUS_IGNORED]
      refine ⟨⟨path, "unstaged", "deleted"⟩, ?_, rfl⟩
      rw [hent]
      exact classify_entry_unstaged 512 _ _ _ (by decide)
        (is_unstaged_deleted_eval 512 _ path (by decide) (by decide) (by decide))
    · have hent : entry_of path ⟨some h0, some i0, none, ig⟩ =
          ⟨514, ⟨⟨some path⟩, ⟨some path⟩⟩, ⟨⟨some path⟩, ⟨some path⟩⟩⟩ := by
        simp [entry_of, status_of, index_flags, wt_flags, GIT_STATUS_INDEX_NEW,
          GIT_STATUS_INDEX_MODIFIED, GIT_STATUS_INDEX_DELETED, GIT_STATUS_WT_NEW,
          GIT_STATUS_WT_MODIFIED, GIT_STATUS_WT_DELETED, GIT_STATUS_IGNORED, he]
      refine ⟨⟨path, "unstaged", "deleted"⟩, ?_, rfl⟩
      rw [hent]
      exact classify_entry_unstaged 514 _ _ _ (by decide)
        (is_unstaged_deleted_eval 514 _ path (by decide) (by decide) (by decide))
  · by_cases he1 : h0 = i0
    · subst he1
      by_cases he2 : h0 = w0
      · subst he2
        have hent : entry_of path ⟨some h0, some h0, some h0, ig⟩ =
            ⟨0, ⟨⟨some path⟩, ⟨some path⟩⟩, ⟨⟨some path⟩, ⟨some path⟩⟩⟩ := by
          simp [entry_of, status_of, index_flags, wt_flags, GIT_STATUS_INDEX_NEW,
          GIT_STATUS_INDEX_MODIFIED, GIT_STATUS_INDEX_DELETED, GIT_STATUS_WT_NEW,
          GIT_STATUS_WT_MODIFIED, GIT_STATUS_WT_DELETED, GIT_STATUS_IGNORED]
        refine ⟨⟨path, "unchanged", "unchanged"⟩, ?_, rfl⟩
        rw [hent]
        exact classify_entry_current 0 _ _ (by decide)
      · have hent : entry_of path ⟨some h0, some h0, some w0, ig⟩ =
            ⟨256, ⟨⟨some path⟩, ⟨some path⟩⟩, ⟨⟨some path⟩, ⟨some path⟩⟩⟩ := by
          simp [entry_of, status_of, index_flags, wt_flags, GIT_STATUS_INDEX_NEW,
          GIT_STATUS_INDEX_MODIFIED, GIT_STATUS_INDEX_DELETED, GIT_STATUS_WT_NEW,
          GIT_STATUS_WT_MODIFIED, GIT_STATUS_WT_DELETED, GIT_STATUS_IGNORED, he2]
        refine ⟨⟨path, "unstaged", "modified"⟩, ?_, rfl⟩
        rw [hent]
        exact classify_entry_unstaged 256 _ _ _ (by decide)
          (is_unstaged_modified_eval 256 _ path (by decide) (by decide) (by decide)
            (by decide))
    · by_cases he2 : i0 = w0
      · subst he2
        have hent : entry_of path ⟨some h0, some i0, some i0, ig⟩ =
            ⟨2, ⟨⟨some path⟩, ⟨some path⟩⟩, ⟨⟨some path⟩, ⟨some path⟩⟩⟩ := by
          simp [entry_of, status_of, index_flags, wt_flags, GIT_STATUS_INDEX_NEW,
          GIT_STATUS_INDEX_MODIFIED, GIT_STATUS_INDEX_DELETED, GIT_STATUS_WT_NEW,
          GIT_STATUS_WT_MODIFIED, GIT_STATUS_WT_DELETED, GIT_STATUS_IGNORED, he1]
        refine ⟨⟨path, "staged", "modified"⟩, ?_, rfl⟩
        rw [hent]
        exact classify_entry_staged 2 _ _ _ (by decide)
          (is_unstaged_none 2 _ _ (by decide) (by decide) (by decide) (by decide))
          (is_staged_modified_eval 2 _ path (by decide) (by decide) (by decide)
            (by decide))
      · have hent : entry_of path ⟨some h0, some i0, some w0, ig⟩ =
            ⟨258, ⟨⟨some path⟩, ⟨some path⟩⟩, ⟨⟨some path⟩, ⟨some path⟩⟩⟩ := by
          simp [entry_of, status_of, index_flags, wt_flags, GIT_STATUS_INDEX_NEW,
          GIT_STATUS_INDEX_MODIFIED, GIT_STATUS_INDEX_DELETED, GIT_STATUS_WT_NEW,
          GIT_STATUS_WT_MODIFIED, GIT_STATUS_WT_DELETED, GIT_STATUS_IGNORED, he1, he2]
        refine ⟨⟨path, "unstaged", "modified"⟩, ?_, rfl⟩
        rw [hent]
        exact classify_entry_unstaged 258 _ _ _ (by decide)
          (is_unstaged_modified_eval 258 _ path (by decide) (by decide) (by decide)
            (by decide))

/-! ## Pattern matcher

The glob engine is specified in section 4.3 of the design and exercised by
`Repository::add` and its tests; the matcher itself is not part of the
wrapper sources. It is modelled from the spec below. -/

/-- One token of the restricted shell-glob dialect. -/
inductive GlobToken where
  | lit : Char → GlobToken
  | star : GlobToken
  | qmark : GlobToken
  | cls : List (Char × Char) → GlobToken
deriving DecidableEq, Repr

/-- Modelled from the spec: parse the bracket class body after `[`, collecting
single characters as degenerate ranges and `a-z` ranges, up to the closing
`]`; returns the items and the rest of the pattern. -/
def parseClass : List Char → List (Char × Char) × List Char
  | [] => ([], [])
  | ']' :: rest => ([], rest)
  | a :: '-' :: b :: rest =>
      let r := parseClass rest
      ((a, b) :: r.1, r.2)
  | c :: rest =>
      let r := parseClass rest
      ((c, c) :: r.1, r.2)

theorem parseClass_rest_le (l : List Char) : (parseClass l).2.length ≤ l.length := by
  induction l using parseClass.induct <;> simp_all [parseClass] <;> omega

/-- Modelled from the spec: tokenize a glob pattern; `\*`, `\?`, `\\`, `\[`
are literal escapes, `*`, `?` and `[...]` are wildcards, everything else is
a literal character. Every token consumes at least one pattern character
(`parseClass_rest_le`), so fuel equal to the pattern length suffices. -/
def parseGlobF : Nat → List Char → List GlobToken
  | 0, _ => []
  | fuel + 1, l =>
    match l with
    | [] => []
    | '\\' :: c :: rest => .lit c :: parseGlobF fuel rest
    | '*' :: rest => .star :: parseGlobF fuel rest
    | '?' :: rest => .qmark :: parseGlobF fuel rest
    | '[' :: rest =>
        let r := parseClass rest
        .cls r.1 :: parseGlobF fuel r.2
    | c :: rest => .lit c :: parseGlobF fuel rest

/-- Modelled from the spec: tokenize a whole glob pattern. -/
def parseGlob (l : List Char) : List GlobToken :=
  parseGlobF l.length l

/-- Modelled from the spec: match a token list against the character list of
an entire relative pathname. `star` matches any run of characters including
path separators and none; `qmark` matches exactly one character; a class
matches one character in its ranges. `atStart` is true at the start of a path
segment (start of the string or right after a separator): a leading `.` of a
segment is matched only by an explicit literal `.` in the pattern, never by a
wildcard. Each recursive step shrinks the pair (tokens, characters), so the
explicit `fuel` bound never runs out when it starts at least one above the
sum of the two lengths; `globMatchF_congr` below proves the answer
independent of any sufficient fuel. -/
def globMatchF : Nat → List GlobToken → List Char → Bool → Bool
  | 0, _, _, _ => false
  | fuel + 1, p, s, atStart =>
    match p, s with
    | [], [] => true
    | [], _ :: _ => false
    | .lit c :: p', d :: s' => c = d && globMatchF fuel p' s' (d = '/')
    | .lit _ :: _, [] => false
    | .qmark :: p', d :: s' => !(atStart && d = '.') && globMatchF fuel p' s' (d = '/')
    | .qmark :: _, [] => false
    | .cls rs :: p', d :: s' =>
        !(atStart && d = '.') && rs.any (fun r => r.1 ≤ d && d ≤ r.2) &&
          globMatchF fuel p' s' (d = '/')
    | .cls _ :: _, [] => false
    | .star :: p', [] => globMatchF fuel p' [] atStart
    | .star :: p', d :: s' =>
        globMatchF fuel p' (d :: s') atStart ||
          (!(atStart && d = '.') && globMatchF fuel (.star :: p') s' (d = '/'))

theorem globMatchF_congr (f1 : Nat) : ∀ (f2 : Nat) (p : List GlobToken)
    (s : List Char) (a : Bool), p.length + s.length < f1 →
    p.length + s.length < f2 → globMatchF f1 p s a = globMatchF f2 p s a := by
  induction f1 with
  | zero => intro f2 p s a h1 h2; omega
  | succ f1 ih =>
    intro f2 p s a h1 h2
    cases f2 with
    | zero => omega
    | succ f2 =>
      cases p with
      | nil => cases s <;> rfl
      | cons tk p' =>
        cases s with
        | nil =>
          cases tk with
          | star =>
              simp only [globMatchF]
              exact ih f2 p' [] a (by simp at h1 ⊢; omega) (by simp at h2 ⊢; omega)
          | lit c => rfl
          | qmark => rfl
          | cls rs => rfl
        | cons d s' =>
          simp only [List.length_cons] at h1 h2
          cases tk with
          | lit c =>
              simp only [globMatchF]
              rw [ih f2 p' s' _ (by omega) (by omega)]
          | qmark =>
              simp only [globMatchF]
              rw [ih f2 p' s' _ (by omega) (by omega)]
          | cls rs =>
              simp only [globMatchF]
              rw [ih f2 p' s' _ (by omega) (by omega)]
          | star =>
              simp only [globMatchF]
              rw [ih f2 p' (d :: s') a (by simp only [List.length_cons]; omega)
                  (by simp only [List.length_cons]; omega),
                ih f2 (.star :: p') s' _ (by simp only [List.length_cons]; omega)
                  (by simp only [List.length_cons]; omega)]

/-- Modelled from the spec: whole-pathname glob matching with segment-scoped
hidden-file exclusion. -/
def globMatch (pattern path : String) : Bool :=
  let tokens := parseGlob pattern.data
  globMatchF (tokens.length + path.data.length + 1) tokens path.data true

/-- Modelled from the spec: the set of working-tree paths selected by a
staging glob, in working-tree order. -/
def stage_selection (worktree : List String) (pattern : String) : List String :=
  worktree.filter (fun p => globMatch pattern p)

/-! ## Repository state

The index, the working tree and commit trees are flat path-keyed tables of
content ids, matching the spec's Index Entry data model. Commits live in a
store addressed by insertion position. -/

/-- A flat path-keyed table: `(path, content id)` entries. -/
abbrev Index := List (String × Nat)

/-- Look a path up in a table. -/
def lookup (idx : Index) (p : String) : Option Nat :=
  (idx.find? (fun e => e.1 == p)).map (fun e => e.2)

/-- Add or replace the entry of one path. -/
def upsert (idx : Index) (p : String) (c : Nat) : Index :=
  idx.filter (fun e => !(e.1 == p)) ++ [(p, c)]

/-- A commit object: tree snapshot, parent commit ids, message. -/
structure GitCommit where
  tree : Index
  parents : List Nat
  message : String
deriving DecidableEq, Repr

/-- Errors surfaced by the wrapper, at the taxonomy level of the spec:
a not-found failure or some other failure, each with the thrown message. -/
inductive GitErr where
  | notFound : String → GitErr
  | other : String → GitErr
deriving DecidableEq, Repr

/-- The repository aggregate: commit store, current branch tip (`none` =
unborn HEAD), the durable on-disk index, and the working tree. -/
structure RepoState where
  store : List GitCommit
  head : Option Nat
  diskIndex : Index
  worktree : Index
deriving DecidableEq, Repr

namespace Repository

/-- `repository_index` wrapper: load the index table from disk. -/
def repository_index (s : RepoState) : Index := s.diskIndex

/-- `git_index_write`: flush the mutated index to durable storage. -/
def git_index_write (s : RepoState) (idx : Index) : RepoState :=
  { s with diskIndex := idx }

/-- Modelled from libgit2 `git_index_add_all` with one pathspec: every
working-tree path matching the glob is staged at its current content; every
indexed path matching the glob that vanished from disk is removed. -/
def git_index_add_all (wt idx : Index) (pat : String) : Index :=
  let kept := idx.filter (fun e => !(globMatch pat e.1 && (lookup wt e.1).isNone))
  wt.foldl (fun acc e => if globMatch pat e.1 then upsert acc e.1 e.2 else acc) kept

/-- Modelled from libgit2 `git_index_update_all`: like add-all but only paths
already present in the index are refreshed or removed; nothing new enters. -/
def git_index_update_all (wt idx : Index) (pat : String) : Index :=
  idx.filterMap (fun e =>
    if globMatch pat e.1 then
      match lookup wt e.1 with
      | some c => some (e.1, c)
      | none => none
    else some e)

/-- `Repository::add` from Repository.cc: load the index, stage everything
matching the glob, write the index. -/
def add (s : RepoState) (glob : String) : RepoState :=
  let gindex := repository_index s
  git_index_write s (git_index_add_all s.worktree gindex glob)

/-- `Repository::update` from Repository.cc: load the index, refresh tracked
entries matching the glob, write the index. -/
def update (s : RepoState) (glob : String) : RepoState :=
  let index := repository_index s
  git_index_write s (git_index_update_all s.worktree index glob)

/-- The loop of `Repository::add_files`: stage each path in order with
`git_index_add_bypath` (which fails when the path is not a file on disk) and
collect the failing positions. -/
def add_files_loop (wt : Index) : Index → Nat → List String → Index × List Nat
  | idx, _, [] => (idx, [])
  | idx, i, p :: ps =>
    match lookup wt p with
    | some c => add_files_loop wt (upsert idx p c) (i + 1) ps
    | none =>
        let r := add_files_loop wt idx (i + 1) ps
        (r.1, i :: r.2)

/-- `Repository::add_files` from Repository.cc: run the staging loop over all
paths, then write the index once; returns the list of failed indices. -/
def add_files (s : RepoState) (filepaths : List String) : RepoState × List Nat :=
  let gindex := repository_index s
  let r := add_files_loop s.worktree gindex 0 filepaths
  (git_index_write s r.1, r.2)

/-- Modelled from libgit2 `git_index_remove_bypath`: drop one path's entry. -/
def git_index_remove_bypath (idx : Index) (p : String) : Index :=
  idx.filter (fun e => !(e.1 == p))

/-- `Repository::remove_files` from Repository.cc: remove each path from the
index, then write the index. -/
def remove_files (s : RepoState) (filepaths : List String) : RepoState :=
  let gindex := repository_index s
  git_index_write s (filepaths.foldl git_index_remove_bypath gindex)

/-- Modelled from libgit2 `git_index_remove_directory`: drop all entries
under the directory. -/
def git_index_remove_directory (idx : Index) (dir : String) : Index :=
  idx.filter (fun e => !((dir ++ "/").isPrefixOf e.1))

/-- `Repository::remove_directory` from Repository.cc: remove the directory's
entries from the index, then write the index. -/
def remove_directory (s : RepoState) (dir : String) : RepoState :=
  let gindex := repository_index s
  git_index_write s (git_index_remove_directory gindex dir)

/-- `Repository::commit_initial` from Repository.cc: snapshot the index as a
tree and create the zero-parent commit "Initial commit" that HEAD's branch is
born at. -/
def commit_initial (s : RepoState) : RepoState :=
  let index := repository_index s
  let c : GitCommit := { tree := index, parents := [], message := "Initial commit" }
  { s with store := s.store ++ [c], head := some s.store.length }

/-- `Repository::commit` from Repository.cc: resolve HEAD to the parent
commit, snapshot the index as a tree, and create a one-parent commit that
becomes the new branch tip. Fails when HEAD cannot be resolved. -/
def commit (s : RepoState) (commit_message : String) : RepoState × Option GitErr :=
  match s.head with
  | none => (s, some (.notFound "Cannot find ID from reference name"))
  | some h =>
      let index := repository_index s
      let c : GitCommit := { tree := index, parents := [h], message := commit_message }
      ({ s with store := s.store ++ [c], head := some s.store.length }, none)

/-- Modelled from libgit2 `git_commit_nth_gen_ancestor`: follow first-parent
links `n` times; `none` when the chain is too short or a commit is missing. -/
def nth_gen_ancestor (store : List GitCommit) (id : Nat) : Nat → Option Nat
  | 0 => if id < store.length then some id else none
  | n + 1 =>
      match (store.get? id).bind (fun c => c.parents.head?) with
      | some q => nth_gen_ancestor store q n
      | none => none

/-- `Repository::get_commit(unsigned int)` from Repository.cc: resolve HEAD
and take the count-th generation ancestor; throws when it does not exist. -/
def get_commit (s : RepoState) (count : Nat) : Except GitErr Nat :=
  match s.head with
  | none => .error (.notFound "Cannot find ID from reference name")
  | some h =>
      match nth_gen_ancestor s.store h count with
      | some a => .ok a
      | none => .error (.notFound "Cannot find ancestor")

/-- The tree of a stored commit (empty for a dangling id). -/
def treeOf (store : List GitCommit) (id : Nat) : Index :=
  ((store.get? id).map (fun c => c.tree)).getD []

/-- Modelled from libgit2 `git_reset(..., GIT_RESET_HARD, ...)`: move the
current branch tip to the commit and make both the index and the working
tree match its tree exactly. -/
def git_reset_hard (s : RepoState) (id : Nat) : RepoState :=
  { s with head := some id
         , diskIndex := treeOf s.store id
         , worktree := treeOf s.store id }

/-- `Repository::reset` from Repository.cc: look up the Nth-generation
ancestor of HEAD and hard-reset to it; on failure the exception propagates
and the repository is left untouched. -/
def reset (s : RepoState) (nr_of_commits : Nat) : RepoState × Option GitErr :=
  match get_commit s nr_of_commits with
  | .error e => (s, some e)
  | .ok id => (git_reset_hard s id, none)

/-- The tree of the current HEAD commit (empty when unborn). -/
def headTreeOf (s : RepoState) : Index :=
  match s.head with
  | none => []
  | some h => treeOf s.store h

/-- All paths known to the repository: those in the HEAD tree, the on-disk
index, or the working tree, each once. -/
def knownPaths (s : RepoState) : List String :=
  ((headTreeOf s).map Prod.fst ++ (repository_index s).map Prod.fst ++
    s.worktree.map Prod.fst).dedup

/-- The three-way view of one path used by the status engine. -/
def pathStateAt (s : RepoState) (p : String) : PathState :=
  ⟨lookup (headTreeOf s) p, lookup (repository_index s) p, lookup s.worktree p, false⟩

/-- `Repository::status` from Repository.cc: build the status list (one entry
per known path, from the on-disk index) and run `collect_status` over it. -/
def status (s : RepoState) : List FileStatus :=
  collect_status ((knownPaths s).map (fun p => entry_of p (pathStateAt s p)))

end Repository

/-! ## Remotes -/

/-- The repository configuration's remote table: ordered `(name, url)` pairs. -/
abbrev RemoteConfig := List (String × String)

/-- The data of one remote as cached by the Remote class: name and URL. -/
structure RemoteRec where
  name : String
  url : String
deriving DecidableEq, Repr

/-- `remote_lookup` wrapper from wrapper_functions.cc: find a configured
remote by name; a null pointer (`none`) when it does not exist. -/
def remote_lookup (config : RemoteConfig) (remote_name : String) : Option RemoteRec :=
  (config.find? (fun e => e.1 == remote_name)).map (fun e => ⟨e.1, e.2⟩)

/-- `Repository::get_remote` from Repository.cc: returns an empty optional
when the lookup yields no remote, with no error raised. -/
def get_remote (config : RemoteConfig) (remote_name : String) : Option RemoteRec :=
  remote_lookup config remote_name

/-- `Repository::list_remote_names` from Repository.cc: the names recorded in
the repository configuration. -/
def list_remote_names (config : RemoteConfig) : List String :=
  config.map Prod.fst

/-- `Repository::list_remotes` from Repository.cc: look every configured name
up; a name whose lookup fails raises an error. -/
def list_remotes (config : RemoteConfig) : Except GitErr (List RemoteRec) :=
  (list_remote_names config).mapM (fun n =>
    match get_remote config n with
    | none => .error (.other ("Lookup failed for remote " ++ n))
    | some r => .ok r)

/-! ## Remote objects and the repository lifetime

`Remote::list_references` (Remote.cc) touches only the remote's own handle
and the network; `Repository::~Repository` (Repository.cc) releases only the
repository and signature handles. The spec makes the transport state
self-contained; the world model below is modelled from the spec on that
point, with the network as a URL-to-ref-advertisement table. -/

/-- A Remote object: cached name and URL plus its own connection state. -/
structure RemoteHandle where
  name : String
  url : String
  connected : Bool
deriving DecidableEq, Repr

/-- The world one Remote object lives in: the originating repository handle
(`none` after destruction), the remote itself, and the network. -/
structure ProgramState where
  repo : Option RepoState
  remote : RemoteHandle
  net : List (String × List String)
deriving DecidableEq, Repr

/-- The ref advertisement an endpoint URL answers with, when reachable. -/
def net_lookup (net : List (String × List String)) (url : String) :
    Option (List String) :=
  (net.find? (fun e => e.1 == url)).map (fun e => e.2)

/-- Modelled from the spec: `git_remote_connect`, establishing the transport
connection once; fails when the endpoint is unreachable. -/
def remote_connect (net : List (String × List String)) (m : RemoteHandle) :
    Except GitErr RemoteHandle :=
  if m.connected then .ok m
  else
    match net_lookup net m.url with
    | some _ => .ok { m with connected := true }
    | none => .error (.other ("Cannot connect to remote " ++ m.name))

/-- Modelled from the spec: `git_remote_ls`, the remote's full ref
advertisement. -/
def remote_ls (net : List (String × List String)) (m : RemoteHandle) :
    Except GitErr (List String) :=
  match net_lookup net m.url with
  | some refs => .ok refs
  | none => .error (.other ("Cannot list references on remote " ++ m.name))

/-- `Remote::list_references` from Remote.cc: connect lazily (once), then
request the ref advertisement. Only the remote handle and the network are
read; the repository component of the world is never consulted. -/
def list_references (st : ProgramState) : Except GitErr (List String × ProgramState) :=
  match remote_connect st.net st.remote with
  | .error e => .error e
  | .ok m =>
      match remote_ls st.net m with
      | .error e => .error e
      | .ok refs => .ok (refs, { st with remote := m })

/-- `Repository::~Repository` from Repository.cc: releases the repository
and signature handles; the Remote object is not touched. -/
def destroy_repository (st : ProgramState) : ProgramState :=
  { st with repo := none }

/-! ## Error class (include/libgit4cpp/Error.h and src/Error.cc) -/

/-- `GIT_EUSER` from git2/errors.h, the default code of a message-only Error. -/
def GIT_EUSER : Int := -7

/-- `git_category_impl::name` from Error.cc. -/
def git_category_name : String := "git"

/-- `git_category_impl::message` from Error.cc: render a `git_error_code`. -/
def git_category_message (ev : Int) : String :=
  if ev = 0 then "GIT_OK"
  else if ev = -1 then "GIT_ERROR"
  else if ev = -3 then "GIT_ENOTFOUND"
  else if ev = -4 then "GIT_EEXISTS"
  else if ev = -5 then "GIT_EAMBIGUOUS"
  else if ev = -6 then "GIT_EBUFS"
  else if ev = -7 then "GIT_EUSER"
  else if ev = -8 then "GIT_EBAREREPO"
  else if ev = -9 then "GIT_EUNBORNBRANCH"
  else if ev = -10 then "GIT_EUNMERGED"
  else if ev = -11 then "GIT_ENONFASTFORWARD"
  else if ev = -12 then "GIT_EINVALIDSPEC"
  else if ev = -13 then "GIT_ECONFLICT"
  else if ev = -14 then "GIT_ELOCKED"
  else if ev = -15 then "GIT_EMODIFIED"
  else if ev = -16 then "GIT_EAUTH"
  else if ev = -17 then "GIT_ECERTIFICATE"
  else if ev = -18 then "GIT_EAPPLIED"
  else if ev = -19 then "GIT_EPEEL"
  else if ev = -20 then "GIT_EEOF"
  else if ev = -21 then "GIT_EINVALID"
  else if ev = -22 then "GIT_EUNCOMMITTED"
  else if ev = -23 then "GIT_EDIRECTORY"
  else if ev = -24 then "GIT_EMERGECONFLICT"
  else if ev = -30 then "GIT_PASSTHROUGH"
  else if ev = -31 then "GIT_ITEROVER"
  else if ev = -32 then "GIT_RETRY"
  else if ev = -33 then "GIT_EMISMATCH"
  else if ev = -34 then "GIT_EINDEXDIRTY"
  else if ev = -35 then "GIT_EAPPLYFAIL"
  else if ev = -36 then "GIT_EOWNER"
  else if ev = -37 then "GIT_TIMEOUT"
  else "unknown GIT error"

/-- The observable state of a `git::Error` exception: the code value, the
name of its `std::error_category`, and the constructor message. -/
structure ErrorInfo where
  value : Int
  category : String
  msg : String
deriving DecidableEq, Repr

/-- `Error(const std::string&)` / `Error(const char*)` from Error.h: the
message-only constructors use `GIT_EUSER` in the dedicated git category. -/
def Error_from_message (what : String) : ErrorInfo :=
  { value := GIT_EUSER, category := git_category_name, msg := what }

/-- `Error(int ev, ...)` from Error.h: an explicit code in the git category. -/
def Error_from_code (ev : Int) (what : String) : ErrorInfo :=
  { value := ev, category := git_category_name, msg := what }

/-- `std::system_error::what()` as pinned by the Error constructor test:
the message followed by the category's rendering of the code. -/
def Error_what (e : ErrorInfo) : String :=
  e.msg ++ ": " ++ git_category_message e.value

/-- A file that is staged as new (in the index, absent from HEAD) and then
modified on disk relative to the index is reported as unstaged/modified. -/
theorem classify_entry_staged_new_and_modified (path : String) (i w : Nat)
    (ig : Bool) (hne : w ≠ i) :
    classify_entry (entry_of path ⟨none, some i, some w, ig⟩) =
      some ⟨path, "unstaged", "modified"⟩ := by
  have hiw : ¬ (i = w) := fun hq => hne hq.symm
  have hent : entry_of path ⟨none, some i, some w, ig⟩ =
      ⟨257, ⟨⟨some path⟩, ⟨some path⟩⟩, ⟨⟨some path⟩, ⟨some path⟩⟩⟩ := by
    simp [entry_of, status_of, index_flags, wt_flags, hiw,
      GIT_STATUS_INDEX_NEW, GIT_STATUS_WT_MODIFIED]
  rw [hent]
  exact classify_entry_unstaged 257 _ _ _ (by decide)
    (is_unstaged_modified_eval 257 _ path (by decide) (by decide) (by decide)
      (by decide))

/-! ## Claim theorems -/

theorem filterMap_eq_map_getD {α β : Type} (f : α → Option β) (d : α → β)
    (l : List α) (h : ∀ x ∈ l, (f x).isSome) :
    l.filterMap f = l.map (fun x => (f x).getD (d x)) := by
  induction l with
  | nil => rfl
  | cons a l ih =>
      have ha := h a (by simp)
      obtain ⟨b, hb⟩ := Option.isSome_iff_exists.mp ha
      simp only [List.filterMap_cons, hb, List.map_cons, Option.getD_some]
      exact congrArg (b :: ·) (ih (fun x hx => h x (by simp [hx])))

theorem map_congr_self {α : Type} (l : List α) (f : α → α)
    (h : ∀ a ∈ l, f a = a) : l.map f = l := by
  induction l with
  | nil => rfl
  | cons a l ih =>
      simp only [List.map_cons, h a (by simp),
        ih (fun x hx => h x (by simp [hx]))]

theorem lookup_isSome_of_mem (idx : Index) (p : String)
    (h : p ∈ idx.map Prod.fst) : (lookup idx p).isSome := by
  obtain ⟨e, he, hep⟩ := List.mem_map.mp h
  have hf : (idx.find? (fun e => e.1 == p)).isSome := by
    rw [List.find?_isSome]
    exact ⟨e, he, by simp [hep]⟩
  simpa [lookup] using hf

theorem pathStateAt_known (s : RepoState) (p : String)
    (h : p ∈ Repository.knownPaths s) : known (Repository.pathStateAt s p) := by
  unfold Repository.knownPaths at h
  rw [List.mem_dedup] at h
  simp only [List.mem_append] at h
  unfold known Repository.pathStateAt
  rcases h with (h | h) | h
  · exact Or.inl (lookup_isSome_of_mem _ _ h)
  · exact Or.inr (Or.inl (lookup_isSome_of_mem _ _ h))
  · exact Or.inr (Or.inr (lookup_isSome_of_mem _ _ h))

/-- The record `Repository::status` produces for one known path. -/
def statusRecord (s : RepoState) (p : String) : FileStatus :=
  (classify_entry (entry_of p (Repository.pathStateAt s p))).getD ⟨p, "", ""⟩

theorem statusRecord_path (s : RepoState) (p : String)
    (h : p ∈ Repository.knownPaths s) : (statusRecord s p).path_name = p := by
  obtain ⟨fs, hfs, hp⟩ := classify_entry_of_known p _ (pathStateAt_known s p h)
  simp [statusRecord, hfs, hp]

/-- C1: every status query classifies each path known to the repository (in
the HEAD tree, the index, or the working tree) into exactly one FileStatus
record: the status list maps the (duplicate-free) known paths one-to-one to
records naming them. The unchanged check runs first, then the unstaged check,
then the staged check, so a path that is both staged-as-new and modified
since staging gets exactly its one record in the unstaged bucket. -/
theorem claim_C1_status_classifies_each_known_path_once (s : RepoState) :
    Repository.status s = (Repository.knownPaths s).map (statusRecord s) ∧
    (Repository.status s).map FileStatus.path_name = Repository.knownPaths s ∧
    (Repository.knownPaths s).Nodup ∧
    (∀ p i w, p ∈ Repository.knownPaths s →
      lookup (Repository.headTreeOf s) p = none →
      lookup (Repository.repository_index s) p = some i →
      lookup s.worktree p = some w → w ≠ i →
      statusRecord s p = ⟨p, "unstaged", "modified"⟩) := by
  have hmap : Repository.status s = (Repository.knownPaths s).map (statusRecord s) := by
    unfold Repository.status collect_status
    rw [List.filterMap_map]
    exact filterMap_eq_map_getD _ _ _ (fun p hp => by
      obtain ⟨fs, hfs, _⟩ := classify_entry_of_known p _ (pathStateAt_known s p hp)
      simp [Function.comp, hfs])
  refine ⟨hmap, ?_, List.nodup_dedup _, ?_⟩
  · rw [hmap, List.map_map]
    exact map_congr_self _ _ (fun p hp => statusRecord_path s p hp)
  · intro p i w hp hh hi hw hne
    have hps : Repository.pathStateAt s p = ⟨none, some i, some w, false⟩ := by
      unfold Repository.pathStateAt
      rw [hh, hi, hw]
    unfold statusRecord
    rw [hps, classify_entry_staged_new_and_modified p i w false hne]
    rfl

/-- Witness for C1: a repository with `a.txt` staged as new (content 1) and
modified on disk since staging (content 2) reports the file exactly once,
as unstaged/modified. -/
theorem claim_C1_witness :
    Repository.status ⟨[], none, [("a.txt", 1)], [("a.txt", 2)]⟩ =
      [⟨"a.txt", "unstaged", "modified"⟩] := by
  have h := claim_C1_status_classifies_each_known_path_once
    ⟨[], none, [("a.txt", 1)], [("a.txt", 2)]⟩
  have h4 := h.2.2.2 "a.txt" 1 2 (by decide) (by rfl) (by rfl) (by rfl)
    (by decide)
  have hk : Repository.knownPaths ⟨[], none, [("a.txt", 1)], [("a.txt", 2)]⟩ =
      ["a.txt"] := by decide
  rw [h.1, hk, List.map_cons, List.map_nil, h4]

/-- C2: with HEAD at commit `h`, `reset(N)` moves the current branch tip to
the Nth-generation ancestor and hard-resets the index and the working tree to
that commit's tree; `reset(0)` leaves the branch tip where it is and only
resets index and working tree to the HEAD commit's own tree (discarding
uncommitted changes); and when the branch has no Nth-generation ancestor
(fewer than N ancestors) the call fails with the not-found error and the
repository state - in particular the branch tip - is unchanged. -/
theorem claim_C2_reset_semantics (s : RepoState) (h n : Nat)
    (hh : s.head = some h) :
    (Repository.nth_gen_ancestor s.store h n = none →
      (Repository.reset s n).1 = s ∧
      ∃ m, (Repository.reset s n).2 = some (GitErr.notFound m)) ∧
    (∀ a, Repository.nth_gen_ancestor s.store h n = some a →
      (Repository.reset s n).2 = none ∧
      (Repository.reset s n).1 =
        { s with head := some a
               , diskIndex := Repository.treeOf s.store a
               , worktree := Repository.treeOf s.store a }) ∧
    (n = 0 → h < s.store.length →
      (Repository.reset s n).2 = none ∧
      (Repository.reset s n).1.head = s.head ∧
      (Repository.reset s n).1.diskIndex = Repository.treeOf s.store h ∧
      (Repository.reset s n).1.worktree = Repository.treeOf s.store h) := by
  refine ⟨?_, ?_, ?_⟩
  · intro hnone
    unfold Repository.reset Repository.get_commit
    simp only [hh, hnone]
    simp
  · intro a ha
    unfold Repository.reset Repository.get_commit Repository.git_reset_hard
    simp only [hh, ha]
    simp
  · intro hn hlen
    subst hn
    have ha : Repository.nth_gen_ancestor s.store h 0 = some h := by
      unfold Repository.nth_gen_ancestor
      rw [if_pos hlen]
    unfold Repository.reset Repository.get_commit Repository.git_reset_hard
    simp only [hh, ha]
    simp

/-- A two-commit repository, the state after the spec's two-commit scenario:
an initial commit of `f` at content 1 and a second commit at content 2. -/
def twoCommitRepo : RepoState :=
  ⟨[⟨[("f", 1)], [], "Initial commit"⟩, ⟨[("f", 2)], [0], "second"⟩],
    some 1, [("f", 2)], [("f", 2)]⟩

/-- Witness for C2: on the two-commit history, `reset(1)` succeeds and
restores index and working tree to the first commit's tree, while `reset(3)`
fails with the not-found error and leaves the repository untouched. -/
theorem claim_C2_witness :
    (Repository.reset twoCommitRepo 1).2 = none ∧
    (Repository.reset twoCommitRepo 1).1.head = some 0 ∧
    (Repository.reset twoCommitRepo 1).1.diskIndex = [("f", 1)] ∧
    (Repository.reset twoCommitRepo 1).1.worktree = [("f", 1)] ∧
    (Repository.reset twoCommitRepo 3).1 = twoCommitRepo ∧
    (∃ m, (Repository.reset twoCommitRepo 3).2 = some (GitErr.notFound m)) := by
  have h1 := (claim_C2_reset_semantics twoCommitRepo 1 1 rfl).2.1 0 (by decide)
  have h3 := (claim_C2_reset_semantics twoCommitRepo 1 3 rfl).1 (by decide)
  refine ⟨h1.1, ?_, ?_, ?_, h3.1, h3.2⟩ <;> rw [h1.2] <;> rfl

theorem lookup_upsert (idx : Index) (p : String) (c : Nat) (q : String) :
    lookup (upsert idx p c) q = if q = p then some c else lookup idx q := by
  induction idx with
  | nil =>
      by_cases h : q = p
      · simp [upsert, lookup, h]
      · have h' : ¬ (p = q) := fun e => h e.symm
        simp [upsert, lookup, h, h']
  | cons e idx ih =>
      by_cases he : e.1 = p
      · rw [show upsert (e :: idx) p c = upsert idx p c from by
          simp [upsert, List.filter_cons, he], ih]
        by_cases hq : q = p
        · simp [hq]
        · have h1 : ¬ e.1 = q := fun hcon => hq (by rw [← hcon]; exact he)
          simp [hq, lookup, List.find?_cons, h1]
      · rw [show upsert (e :: idx) p c = e :: upsert idx p c from by
          simp [upsert, List.filter_cons, he]]
        by_cases hq2 : e.1 = q
        · have hqp : ¬ q = p := fun hcon => he (by rw [hq2, hcon])
          simp [lookup, List.find?_cons, hq2, hqp]
        · have hl : lookup (e :: upsert idx p c) q = lookup (upsert idx p c) q := by
            simp [lookup, List.find?_cons, hq2]
          have hr : lookup (e :: idx) q = lookup idx q := by
            simp [lookup, List.find?_cons, hq2]
          rw [hl, hr, ih]

theorem add_files_loop_fst (wt : Index) (ps : List String) :
    ∀ (idx : Index) (i : Nat) (q : String),
    lookup (Repository.add_files_loop wt idx i ps).1 q =
      if q ∈ ps ∧ (lookup wt q).isSome then lookup wt q else lookup idx q := by
  induction ps with
  | nil => intro idx i q; simp [Repository.add_files_loop]
  | cons p ps ih =>
      intro idx i q
      unfold Repository.add_files_loop
      cases hw : lookup wt p with
      | some c =>
          dsimp only
          rw [ih]
          by_cases hq : q ∈ ps ∧ (lookup wt q).isSome
          · simp [hq, List.mem_cons, hq.1]
          · rw [if_neg hq, lookup_upsert]
            by_cases hqp : q = p
            · subst hqp
              rw [if_pos rfl, if_pos ⟨List.mem_cons_self q ps, by simp [hw]⟩, hw]
            · rw [if_neg hqp, if_neg (fun hcon => hq ⟨?_, hcon.2⟩)]
              rcases List.mem_cons.mp hcon.1 with h | h
              · exact absurd h hqp
              · exact h
      | none =>
          dsimp only
          rw [ih]
          by_cases hqp : q = p
          · subst hqp
            rw [if_neg (fun hcon => by simp [hw] at hcon),
              if_neg (fun hcon => by simp [hw] at hcon)]
          · by_cases hq : q ∈ ps ∧ (lookup wt q).isSome
            · rw [if_pos hq, if_pos ⟨List.mem_cons_of_mem p hq.1, hq.2⟩]
            · rw [if_neg hq, if_neg (fun hcon => hq ⟨?_, hcon.2⟩)]
              rcases List.mem_cons.mp hcon.1 with h | h
              · exact absurd h hqp
              · exact h

theorem add_files_loop_snd (wt : Index) (ps : List String) :
    ∀ (idx : Index) (i : Nat),
    (Repository.add_files_loop wt idx i ps).2 =
      ((ps.enumFrom i).filter (fun q => (lookup wt q.2).isNone)).map Prod.fst := by
  induction ps with
  | nil => intro idx i; simp [Repository.add_files_loop]
  | cons p ps ih =>
      intro idx i
      unfold Repository.add_files_loop
      cases hw : lookup wt p with
      | some c => simp [List.enumFrom, hw, ih]
      | none => simp [List.enumFrom, hw, ih]

theorem add_files_loop_nil_iff (wt : Index) (ps : List String) :
    ∀ (idx : Index) (i : Nat),
    ((Repository.add_files_loop wt idx i ps).2 = [] ↔
      ∀ p ∈ ps, (lookup wt p).isSome) := by
  induction ps with
  | nil => intro idx i; simp [Repository.add_files_loop]
  | cons p ps ih =>
      intro idx i
      unfold Repository.add_files_loop
      cases hw : lookup wt p with
      | some c => simp [hw, ih]
      | none => simp [hw]

/-- C3: `add_files` returns exactly the indices (into the input list) of the
paths that could not be staged; the operation is not atomic, so every path
that could be staged is staged in the written index even when other paths
fail; and the returned list is empty exactly when every path was stageable. -/
theorem claim_C3_add_files_partial_failure (s : RepoState) (paths : List String) :
    (Repository.add_files s paths).2 =
      ((paths.enum).filter (fun q => (lookup s.worktree q.2).isNone)).map Prod.fst ∧
    (∀ p c, p ∈ paths → lookup s.worktree p = some c →
      lookup (Repository.add_files s paths).1.diskIndex p = some c) ∧
    ((Repository.add_files s paths).2 = [] ↔
      ∀ p ∈ paths, (lookup s.worktree p).isSome) := by
  refine ⟨?_, ?_, ?_⟩
  · show (Repository.add_files_loop s.worktree s.diskIndex 0 paths).2 = _
    rw [add_files_loop_snd]
    rfl
  · intro p c hp hc
    show lookup (Repository.add_files_loop s.worktree s.diskIndex 0 paths).1 p = some c
    rw [add_files_loop_fst]
    rw [if_pos ⟨hp, by simp [hc]⟩, hc]
  · show (Repository.add_files_loop s.worktree s.diskIndex 0 paths).2 = [] ↔ _
    exact add_files_loop_nil_iff s.worktree paths s.diskIndex 0

/-- Witness for C3: staging `a`, `b`, `c` with only `a` and `c` on disk
reports exactly index 1 as failed, while `a` (staged before the failure)
remains staged. -/
theorem claim_C3_witness :
    (Repository.add_files ⟨[], none, [], [("a", 1), ("c", 3)]⟩ ["a", "b", "c"]).2 = [1] ∧
    lookup (Repository.add_files ⟨[], none, [], [("a", 1), ("c", 3)]⟩
      ["a", "b", "c"]).1.diskIndex "a" = some 1 := by
  have h := claim_C3_add_files_partial_failure ⟨[], none, [], [("a", 1), ("c", 3)]⟩
    ["a", "b", "c"]
  exact ⟨by rw [h.1]; decide, h.2.1 "a" 1 (by decide) (by decide)⟩

/-- The working tree of the glob test (test_Repository.cc, "add() with glob"). -/
def testTree : List String :=
  [".Atlantis/file0.txt", "Burundi/file0.txt", "Burundi/file1.txt",
   "Burundi/file2.txt", "Honduras/file0.txt", "Japan/file0.txt",
   "Japan/file1.txt", "Japan/Hokkaido/file0.txt", "Japan/Hyogo/file0.txt",
   "Japan/Hyogo/file1.txt", "Malaysia/file0.txt", "Paraguay/file0.txt",
   "Paraguay/file1.txt", "Peru/file0.txt", "Peru/file1.txt"]

/-- C4: a `.` at the start of a path segment is matched only by an explicit
literal `.` in the pattern: no wildcard (`*`, `?` or a class) ever consumes
a segment-leading dot; concretely, with `.Atlantis/file0.txt` in the working
tree, staging with glob `*` does not select it while glob `.*` does. -/
theorem claim_C4_hidden_file_exclusion :
    (∀ (p' : List GlobToken) (rest : List Char) (fuel : Nat),
      globMatchF (fuel + 1) (.star :: p') ('.' :: rest) true =
        globMatchF fuel p' ('.' :: rest) true) ∧
    (∀ (p' : List GlobToken) (rest : List Char) (fuel : Nat),
      globMatchF (fuel + 1) (.qmark :: p') ('.' :: rest) true = false) ∧
    (∀ (rs : List (Char × Char)) (p' : List GlobToken) (rest : List Char) (fuel : Nat),
      globMatchF (fuel + 1) (.cls rs :: p') ('.' :: rest) true = false) ∧
    globMatch "*" ".Atlantis/file0.txt" = false ∧
    globMatch ".*" ".Atlantis/file0.txt" = true ∧
    (".Atlantis/file0.txt" ∉ stage_selection testTree "*") ∧
    (".Atlantis/file0.txt" ∈ stage_selection testTree ".*") := by
  refine ⟨?_, ?_, ?_, by decide, by decide, by decide, by decide⟩
  · intro p' rest fuel
    simp +decide [globMatchF]
  · intro p' rest fuel
    simp +decide [globMatchF]
  · intro rs p' rest fuel
    simp +decide [globMatchF]

/-- C5: globs are matched against the entire relative pathname, not per path
segment: on the test working tree, staging with `*/H*` selects exactly the
entries whose second-level component starts with `H` (the Japan/Hokkaido and
Japan/Hyogo files) and nothing under the first-level directory `Honduras`,
while glob `H*` selects exactly `Honduras/file0.txt` and glob `file1*`
selects nothing because no full pathname starts with `file1`. -/
theorem claim_C5_whole_pathname_matching :
    stage_selection testTree "*/H*" =
      ["Japan/Hokkaido/file0.txt", "Japan/Hyogo/file0.txt",
       "Japan/Hyogo/file1.txt"] ∧
    "Honduras/file0.txt" ∉ stage_selection testTree "*/H*" ∧
    stage_selection testTree "H*" = ["Honduras/file0.txt"] ∧
    stage_selection testTree "file1*" = [] := by
  exact ⟨by decide, by decide, by decide, by decide⟩

/-- C6: with HEAD resolved at commit `h`, `commit()` succeeds and advances
the current branch tip by exactly one new commit whose parent list is
exactly `[h]` (the previous HEAD commit); and the very first commit created
by `commit_initial` on an unborn branch has exactly zero parents. -/
theorem claim_C6_commit_parents (s : RepoState) (msg : String) (h : Nat)
    (hh : s.head = some h) :
    (Repository.commit s msg).2 = none ∧
    (Repository.commit s msg).1.store.length = s.store.length + 1 ∧
    (Repository.commit s msg).1.head = some s.store.length ∧
    (Repository.commit s msg).1.store.get? s.store.length =
      some ⟨Repository.repository_index s, [h], msg⟩ ∧
    (∀ s0 : RepoState, s0.head = none →
      (Repository.commit_initial s0).head = some s0.store.length ∧
      (Repository.commit_initial s0).store.get? s0.store.length =
        some ⟨Repository.repository_index s0, [], "Initial commit"⟩) := by
  unfold Repository.commit
  simp only [hh]
  refine ⟨trivial, by simp, trivial, List.get?_concat_length _ _, ?_⟩
  intro s0 h0
  unfold Repository.commit_initial
  exact ⟨rfl, List.get?_concat_length _ _⟩

/-- Witness for C6: committing on a one-commit repository creates a commit
with the single parent 0, and the initial commit of a fresh repository has
no parents. -/
theorem claim_C6_witness :
    (Repository.commit ⟨[⟨[], [], "Initial commit"⟩], some 0, [("a", 1)],
      [("a", 1)]⟩ "Add files").1.store.get? 1 =
      some ⟨[("a", 1)], [0], "Add files"⟩ ∧
    (Repository.commit_initial ⟨[], none, [], []⟩).store.get? 0 =
      some ⟨[], [], "Initial commit"⟩ := by
  have h := claim_C6_commit_parents
    ⟨[⟨[], [], "Initial commit"⟩], some 0, [("a", 1)], [("a", 1)]⟩ "Add files" 0 rfl
  exact ⟨h.2.2.2.1, (h.2.2.2.2 ⟨[], none, [], []⟩ rfl).2⟩

theorem get_remote_of_mem (config : RemoteConfig) (n : String)
    (h : n ∈ config.map Prod.fst) : ∃ url, get_remote config n = some ⟨n, url⟩ := by
  have hf : (config.find? (fun e => e.1 == n)).isSome := by
    rw [List.find?_isSome]
    obtain ⟨e, he, hep⟩ := List.mem_map.mp h
    exact ⟨e, he, by simp [hep]⟩
  obtain ⟨e, he⟩ := Option.isSome_iff_exists.mp hf
  have hp := List.find?_some he
  simp only [beq_iff_eq] at hp
  refine ⟨e.2, ?_⟩
  unfold get_remote remote_lookup
  rw [he]
  simp [hp]

theorem list_remotes_ok (config : RemoteConfig) :
    ∃ L, list_remotes config = .ok L ∧ L.map RemoteRec.name = config.map Prod.fst := by
  unfold list_remotes
  suffices hgen : ∀ names : List String, (∀ n ∈ names, n ∈ config.map Prod.fst) →
      ∃ L, (names.mapM (fun n => match get_remote config n with
        | none => Except.error (GitErr.other ("Lookup failed for remote " ++ n))
        | some r => Except.ok r) : Except GitErr (List RemoteRec)) = .ok L ∧
        L.map RemoteRec.name = names by
    exact hgen (list_remote_names config) (fun n hn => hn)
  intro names
  induction names with
  | nil => intro _; exact ⟨[], rfl, rfl⟩
  | cons n names ih =>
      intro hmem
      obtain ⟨url, hu⟩ := get_remote_of_mem config n (hmem n (by simp))
      obtain ⟨L, hL, hLn⟩ := ih (fun m hm => hmem m (by simp [hm]))
      refine ⟨⟨n, url⟩ :: L, ?_, by simp [hLn]⟩
      simp only [List.mapM_cons, hu, hL]
      rfl

/-- C7: for a remote name that does not exist in the repository
configuration, `get_remote` returns an empty optional and `list_remotes`
returns, without raising an error, a list that does not contain that name. -/
theorem claim_C7_missing_remote_queries (config : RemoteConfig) (name : String)
    (h : name ∉ config.map Prod.fst) :
    get_remote config name = none ∧
    ∃ L, list_remotes config = .ok L ∧ name ∉ L.map RemoteRec.name := by
  constructor
  · unfold get_remote remote_lookup
    have hn : config.find? (fun e => e.1 == name) = none := by
      rw [List.find?_eq_none]
      intro e he
      simp only [beq_iff_eq]
      exact fun hcon => h (List.mem_map.mpr ⟨e, he, hcon⟩)
    rw [hn]
    rfl
  · obtain ⟨L, hL, hn⟩ := list_remotes_ok config
    exact ⟨L, hL, by rw [hn]; exact h⟩

/-- Witness for C7: a configuration holding only `origin` answers a query
for `upstream` with an empty optional and a remote list without it. -/
theorem claim_C7_witness :
    get_remote [("origin", "https://x.example/r.git")] "upstream" = none ∧
    ∃ L, list_remotes [("origin", "https://x.example/r.git")] = .ok L ∧
      "upstream" ∉ L.map RemoteRec.name :=
  claim_C7_missing_remote_queries _ "upstream" (by decide)

/-- C8: destroying the originating repository handle does not change what
`list_references` answers: with the endpoint advertising `refs`, the call
returns exactly `refs` both before and after the repository is released,
because the Remote owns its own connection state. -/
theorem claim_C8_remote_survives_repo_destruction (st : ProgramState)
    (refs : List String) (hnet : net_lookup st.net st.remote.url = some refs) :
    ∃ m : RemoteHandle,
      list_references (destroy_repository st) = .ok (refs, ⟨none, m, st.net⟩) ∧
      list_references st = .ok (refs, ⟨st.repo, m, st.net⟩) := by
  refine ⟨if st.remote.connected then st.remote else
    { st.remote with connected := true }, ?_, ?_⟩ <;>
    by_cases hc : st.remote.connected <;>
      simp [list_references, destroy_repository, remote_connect, remote_ls,
        hc, hnet]

/-- Witness for C8: a freshly created remote of a one-endpoint network
answers the same advertisement before and after its repository is gone. -/
theorem claim_C8_witness :
    ∃ m : RemoteHandle,
      list_references (destroy_repository ⟨some ⟨[], none, [], []⟩,
          ⟨"origin", "file:///remote", false⟩,
          [("file:///remote", ["refs/heads/main"])]⟩) =
        .ok (["refs/heads/main"],
          ⟨none, m, [("file:///remote", ["refs/heads/main"])]⟩) ∧
      list_references ⟨some ⟨[], none, [], []⟩,
          ⟨"origin", "file:///remote", false⟩,
          [("file:///remote", ["refs/heads/main"])]⟩ =
        .ok (["refs/heads/main"], ⟨some ⟨[], none, [], []⟩, m,
          [("file:///remote", ["refs/heads/main"])]⟩) :=
  claim_C8_remote_survives_repo_destruction _ _ (by decide)

/-- C9: every index-mutating operation (`add`, `update`, `add_files`,
`remove_files`, `remove_directory`) leaves the durable index equal to the
pure mutation of the previously persisted table before returning, so the
`repository_index` load used by any subsequent status or commit observes
the mutation with no separate persist step; the status view of each path
reads that persisted table, and a commit right after `add` snapshots
exactly the mutated table. -/
theorem claim_C9_index_mutations_persisted (s : RepoState)
    (glob pat dir msg : String) (paths files : List String) :
    Repository.repository_index (Repository.add s glob) =
      Repository.git_index_add_all s.worktree (Repository.repository_index s) glob ∧
    Repository.repository_index (Repository.update s pat) =
      Repository.git_index_update_all s.worktree (Repository.repository_index s) pat ∧
    Repository.repository_index (Repository.add_files s paths).1 =
      (Repository.add_files_loop s.worktree (Repository.repository_index s) 0 paths).1 ∧
    Repository.repository_index (Repository.remove_files s files) =
      files.foldl Repository.git_index_remove_bypath (Repository.repository_index s) ∧
    Repository.repository_index (Repository.remove_directory s dir) =
      Repository.git_index_remove_directory (Repository.repository_index s) dir ∧
    (∀ p, (Repository.pathStateAt (Repository.add s glob) p).index =
      lookup (Repository.repository_index (Repository.add s glob)) p) ∧
    (∀ h, s.head = some h →
      (Repository.commit (Repository.add s glob) msg).1.store.get? s.store.length =
        some ⟨Repository.git_index_add_all s.worktree
          (Repository.repository_index s) glob, [h], msg⟩) := by
  refine ⟨rfl, rfl, rfl, rfl, rfl, fun p => rfl, ?_⟩
  intro h hh
  unfold Repository.commit
  have hhead : (Repository.add s glob).head = some h := hh
  simp only [hhead]
  exact List.get?_concat_length _ _

/-- Witness for C9: adding with glob `*` persists the staged file, and the
commit right after snapshots exactly that persisted index. -/
theorem claim_C9_witness :
    Repository.repository_index (Repository.add
      ⟨[⟨[], [], "Initial commit"⟩], some 0, [], [("a", 1)]⟩ "*") = [("a", 1)] ∧
    (Repository.commit (Repository.add
        ⟨[⟨[], [], "Initial commit"⟩], some 0, [], [("a", 1)]⟩ "*")
      "m").1.store.get? 1 = some ⟨[("a", 1)], [0], "m"⟩ := by
  have h := claim_C9_index_mutations_persisted
    ⟨[⟨[], [], "Initial commit"⟩], some 0, [], [("a", 1)]⟩ "*" "*" "d" "m" [] []
  refine ⟨?_, ?_⟩
  · rw [h.1]
    decide
  · exact (h.2.2.2.2.2.2 0 rfl).trans (by decide)

/-- C10: a git::Error constructed from a message alone carries the error
code GIT_EUSER = -7 in the dedicated git error category (named "git", which
renders -7 as "GIT_EUSER"), and the constructor test's instance satisfies
what() = "Test: GIT_EUSER". -/
theorem claim_C10_error_default_code (msg : String) :
    (Error_from_message msg).value = -7 ∧
    (Error_from_message msg).value = GIT_EUSER ∧
    (Error_from_message msg).category = git_category_name ∧
    git_category_name = "git" ∧
    git_category_message GIT_EUSER = "GIT_EUSER" ∧
    (Error_from_message msg).msg = msg ∧
    Error_what (Error_from_message "Test") = "Test: GIT_EUSER" := by
  refine ⟨rfl, rfl, rfl, rfl, by decide, rfl, by decide⟩
